import Mathlib

/-!
Verification development for the CheckMyForm pose-analysis core.

The definitions below are a shallow embedding, over exact rationals, of the
normalization code in `src/services/poseDetection.ts` (MoveNet path) and
`src/services/mlkitPoseDetection.ts` (ML Kit path), of the keypoint types in
`src/types/pose.ts`, and — for the components that exist only in the design
documents (angle engine, rep counter) — models taken from the specification.
JavaScript numbers are modelled as rationals (the algorithms use only
field operations and comparisons); JavaScript arrays, whose element
assignment past the current length grows the array and leaves holes, are
modelled as lists of optional values where a hole is `none`.
-/

/-- One landmark observation: 2-D position plus confidence.
Embeds the `Keypoint` interface of `src/types/pose.ts`. -/
structure Keypoint where
  x : ℚ
  y : ℚ
  score : ℚ
deriving DecidableEq, Repr

/-- One frame's detection result: the keypoint collection (a JS array,
possibly with holes, hence optional entries) plus an aggregate score.
Embeds the `Pose` interface of `src/types/pose.ts`. -/
structure Pose where
  keypoints : List (Option Keypoint)
  score : ℚ
deriving DecidableEq, Repr

/-- Camera frame dimensions, as used by `convertMLKitPoseToPose`. -/
structure Frame where
  width : ℚ
  height : ℚ
deriving DecidableEq, Repr

namespace KeypointIndex

/-- `KeypointIndex.NOSE` from `src/types/pose.ts` (BlazePose numbering). -/
def NOSE : ℕ := 0

/-- `KeypointIndex.LEFT_EYE` from `src/types/pose.ts`. -/
def LEFT_EYE : ℕ := 2

/-- `KeypointIndex.RIGHT_EYE` from `src/types/pose.ts`. -/
def RIGHT_EYE : ℕ := 5

/-- `KeypointIndex.LEFT_EAR` from `src/types/pose.ts`. -/
def LEFT_EAR : ℕ := 7

/-- `KeypointIndex.RIGHT_EAR` from `src/types/pose.ts`. -/
def RIGHT_EAR : ℕ := 8

/-- `KeypointIndex.LEFT_SHOULDER` from `src/types/pose.ts`. -/
def LEFT_SHOULDER : ℕ := 11

/-- `KeypointIndex.RIGHT_SHOULDER` from `src/types/pose.ts`. -/
def RIGHT_SHOULDER : ℕ := 12

/-- `KeypointIndex.LEFT_ELBOW` from `src/types/pose.ts`. -/
def LEFT_ELBOW : ℕ := 13

/-- `KeypointIndex.RIGHT_ELBOW` from `src/types/pose.ts`. -/
def RIGHT_ELBOW : ℕ := 14

/-- `KeypointIndex.LEFT_WRIST` from `src/types/pose.ts`. -/
def LEFT_WRIST : ℕ := 15

/-- `KeypointIndex.RIGHT_WRIST` from `src/types/pose.ts`. -/
def RIGHT_WRIST : ℕ := 16

/-- `KeypointIndex.LEFT_HIP` from `src/types/pose.ts`. -/
def LEFT_HIP : ℕ := 23

/-- `KeypointIndex.RIGHT_HIP` from `src/types/pose.ts`. -/
def RIGHT_HIP : ℕ := 24

/-- `KeypointIndex.LEFT_KNEE` from `src/types/pose.ts`. -/
def LEFT_KNEE : ℕ := 25

/-- `KeypointIndex.RIGHT_KNEE` from `src/types/pose.ts`. -/
def RIGHT_KNEE : ℕ := 26

/-- `KeypointIndex.LEFT_ANKLE` from `src/types/pose.ts`. -/
def LEFT_ANKLE : ℕ := 27

/-- `KeypointIndex.RIGHT_ANKLE` from `src/types/pose.ts`. -/
def RIGHT_ANKLE : ℕ := 28

end KeypointIndex

/-- All 17 canonical landmark identifiers, in declaration order of the
`KeypointIndex` enumeration in `src/types/pose.ts`. -/
def canonicalIndices : List ℕ :=
  [KeypointIndex.NOSE, KeypointIndex.LEFT_EYE, KeypointIndex.RIGHT_EYE,
   KeypointIndex.LEFT_EAR, KeypointIndex.RIGHT_EAR,
   KeypointIndex.LEFT_SHOULDER, KeypointIndex.RIGHT_SHOULDER,
   KeypointIndex.LEFT_ELBOW, KeypointIndex.RIGHT_ELBOW,
   KeypointIndex.LEFT_WRIST, KeypointIndex.RIGHT_WRIST,
   KeypointIndex.LEFT_HIP, KeypointIndex.RIGHT_HIP,
   KeypointIndex.LEFT_KNEE, KeypointIndex.RIGHT_KNEE,
   KeypointIndex.LEFT_ANKLE, KeypointIndex.RIGHT_ANKLE]

/-- A skeleton edge between two canonical landmarks
(`SkeletonConnection` in `src/types/pose.ts`). -/
structure SkeletonConnection where
  start : ℕ
  stop : ℕ
deriving DecidableEq, Repr

/-- The drawing edges `SKELETON_CONNECTIONS` of `src/types/pose.ts`:
pairs of `KeypointIndex` values used to index `Pose.keypoints` positionally. -/
def SKELETON_CONNECTIONS : List SkeletonConnection :=
  [⟨KeypointIndex.LEFT_EYE, KeypointIndex.RIGHT_EYE⟩,
   ⟨KeypointIndex.LEFT_EYE, KeypointIndex.NOSE⟩,
   ⟨KeypointIndex.RIGHT_EYE, KeypointIndex.NOSE⟩,
   ⟨KeypointIndex.LEFT_EAR, KeypointIndex.LEFT_EYE⟩,
   ⟨KeypointIndex.RIGHT_EAR, KeypointIndex.RIGHT_EYE⟩,
   ⟨KeypointIndex.LEFT_SHOULDER, KeypointIndex.RIGHT_SHOULDER⟩,
   ⟨KeypointIndex.LEFT_SHOULDER, KeypointIndex.LEFT_ELBOW⟩,
   ⟨KeypointIndex.LEFT_ELBOW, KeypointIndex.LEFT_WRIST⟩,
   ⟨KeypointIndex.RIGHT_SHOULDER, KeypointIndex.RIGHT_ELBOW⟩,
   ⟨KeypointIndex.RIGHT_ELBOW, KeypointIndex.RIGHT_WRIST⟩,
   ⟨KeypointIndex.LEFT_SHOULDER, KeypointIndex.LEFT_HIP⟩,
   ⟨KeypointIndex.RIGHT_SHOULDER, KeypointIndex.RIGHT_HIP⟩,
   ⟨KeypointIndex.LEFT_HIP, KeypointIndex.RIGHT_HIP⟩,
   ⟨KeypointIndex.LEFT_HIP, KeypointIndex.LEFT_KNEE⟩,
   ⟨KeypointIndex.LEFT_KNEE, KeypointIndex.LEFT_ANKLE⟩,
   ⟨KeypointIndex.RIGHT_HIP, KeypointIndex.RIGHT_KNEE⟩,
   ⟨KeypointIndex.RIGHT_KNEE, KeypointIndex.RIGHT_ANKLE⟩]

/-- `MIN_KEYPOINT_SCORE` from `src/services/poseDetection.ts`. -/
def MIN_KEYPOINT_SCORE : ℚ := 3/10

/-- The keypoint stored for slot `i` by the parsing loop of
`PoseDetectionService.detectPose`: the source triple
`[y, x, score] = arr[i*3 .. i*3+2]` when the score clears the threshold,
the sentinel `{x: 0, y: 0, score: 0}` otherwise. -/
def movenetSlot (t : ℚ) (arr : ℕ → ℚ) (i : ℕ) : Keypoint :=
  if arr (i*3+2) > t then ⟨arr (i*3+1), arr (i*3), arr (i*3+2)⟩ else ⟨0, 0, 0⟩

/-- One iteration of the `for (let i = 0; i < 17; i++)` loop of
`PoseDetectionService.detectPose`: push the kept keypoint (accumulating
`totalScore` and `validKeypoints`) or push the sentinel. -/
def movenetStep (t : ℚ) (arr : ℕ → ℚ)
    (acc : List (Option Keypoint) × ℚ × ℕ) (i : ℕ) :
    List (Option Keypoint) × ℚ × ℕ :=
  if arr (i*3+2) > t then
    (acc.1 ++ [some ⟨arr (i*3+1), arr (i*3), arr (i*3+2)⟩],
     acc.2.1 + arr (i*3+2), acc.2.2 + 1)
  else
    (acc.1 ++ [some ⟨0, 0, 0⟩], acc.2.1, acc.2.2)

/-- The normalization tail of `PoseDetectionService.detectPose`
(`src/services/poseDetection.ts`, lines 136-170), parameterized by the
keypoint-confidence threshold, acting on the model's flat output array
`[y1, x1, score1, y2, x2, score2, ...]` (the part of `detectPose` after
inference; tensor plumbing is the out-of-scope detector). -/
def detectPoseT (t : ℚ) (arr : ℕ → ℚ) : Option Pose :=
  let r := (List.range 17).foldl (movenetStep t arr) ([], 0, 0)
  let poseScore := if r.2.2 > 0 then r.2.1 / (r.2.2 : ℚ) else 0
  if r.2.2 ≥ 5 then some ⟨r.1, poseScore⟩ else none

/-- `PoseDetectionService.detectPose` at the source's threshold
`MIN_KEYPOINT_SCORE = 0.3`. -/
def detectPose (arr : ℕ → ℚ) : Option Pose := detectPoseT MIN_KEYPOINT_SCORE arr

/-- The MoveNet slots whose confidence clears the threshold. -/
def movenetKept (t : ℚ) (arr : ℕ → ℚ) : List ℕ :=
  (List.range 17).filter (fun i => arr (i*3+2) > t)

/-- Number of source keypoints with confidence above the threshold
(`validKeypoints` in `detectPose`). -/
def movenetCount (t : ℚ) (arr : ℕ → ℚ) : ℕ := (movenetKept t arr).length

/-- Mean of a list of rationals. -/
def meanQ (l : List ℚ) : ℚ := l.sum / (l.length : ℚ)

theorem movenetFold_spec (t : ℚ) (arr : ℕ → ℚ) (l : List ℕ) :
    ∀ (kps : List (Option Keypoint)) (tot : ℚ) (cnt : ℕ),
    l.foldl (movenetStep t arr) (kps, tot, cnt) =
      (kps ++ l.map (fun i => some (movenetSlot t arr i)),
       tot + ((l.filter (fun i => arr (i*3+2) > t)).map (fun i => arr (i*3+2))).sum,
       cnt + (l.countP (fun i => arr (i*3+2) > t))) := by
  induction l with
  | nil => intro kps tot cnt; simp
  | cons i l ih =>
    intro kps tot cnt
    by_cases h : arr (i*3+2) > t
    · simp only [List.foldl_cons, movenetStep, if_pos h, ih, List.map_cons,
        List.filter_cons, List.countP_cons, h, decide_eq_true_eq, if_true,
        Prod.mk.injEq]
      refine ⟨by simp [movenetSlot, if_pos h], by simp [List.sum_cons]; ring,
        by simp; omega⟩
    · simp only [List.foldl_cons, movenetStep, if_neg h, ih, List.map_cons,
        List.filter_cons, List.countP_cons, Prod.mk.injEq]
      refine ⟨by simp [movenetSlot, if_neg h], by simp [h], by simp [h]⟩

theorem detectPoseT_eq (t : ℚ) (arr : ℕ → ℚ) :
    detectPoseT t arr =
      if movenetCount t arr ≥ 5 then
        some ⟨(List.range 17).map (fun i => some (movenetSlot t arr i)),
              ((movenetKept t arr).map (fun i => arr (i*3+2))).sum /
                (movenetCount t arr : ℚ)⟩
      else none := by
  have hc : (List.range 17).countP (fun i => arr (i*3+2) > t) = movenetCount t arr := by
    simp [movenetCount, movenetKept, List.countP_eq_length_filter]
  simp only [detectPoseT, movenetFold_spec, List.nil_append, zero_add]
  by_cases h : movenetCount t arr ≥ 5
  · have hpos : 0 < movenetCount t arr := by omega
    simp [hc, h, movenetKept, hpos]
  · simp [hc, h]

/-- One ML Kit landmark as read by `convertMLKitPoseToPose`: pixel position
and `inFrameLikelihood`. -/
structure MLKitLandmark where
  px : ℚ
  py : ℚ
  inFrameLikelihood : ℚ
deriving DecidableEq, Repr

/-- The fields of an ML Kit pose item that `convertMLKitPoseToPose` reads
(its `keypointMapping` keys `Nose`, `LeftEyeInner`, ..., `RightAnkle`);
each is optional because the detector may omit a landmark (the code checks
`mlkitKeypoint &&` before using it). -/
structure MLKitPose where
  nose : Option MLKitLandmark
  leftEyeInner : Option MLKitLandmark
  rightEyeInner : Option MLKitLandmark
  leftEar : Option MLKitLandmark
  rightEar : Option MLKitLandmark
  leftShoulder : Option MLKitLandmark
  rightShoulder : Option MLKitLandmark
  leftElbow : Option MLKitLandmark
  rightElbow : Option MLKitLandmark
  leftWrist : Option MLKitLandmark
  rightWrist : Option MLKitLandmark
  leftHip : Option MLKitLandmark
  rightHip : Option MLKitLandmark
  leftKnee : Option MLKitLandmark
  rightKnee : Option MLKitLandmark
  leftAnkle : Option MLKitLandmark
  rightAnkle : Option MLKitLandmark
deriving DecidableEq, Repr

/-- One row of `keypointMapping` in `convertMLKitPoseToPose`: the accessor
for the ML Kit key and the target canonical index (`ourIndex`). -/
abbrev MapEntry := (MLKitPose → Option MLKitLandmark) × ℕ

/-- The `keypointMapping` table of `convertMLKitPoseToPose`
(`src/services/mlkitPoseDetection.ts`, lines 21-39), in source order. -/
def keypointMapping : List MapEntry :=
  [(MLKitPose.nose, KeypointIndex.NOSE),
   (MLKitPose.leftEyeInner, KeypointIndex.LEFT_EYE),
   (MLKitPose.rightEyeInner, KeypointIndex.RIGHT_EYE),
   (MLKitPose.leftEar, KeypointIndex.LEFT_EAR),
   (MLKitPose.rightEar, KeypointIndex.RIGHT_EAR),
   (MLKitPose.leftShoulder, KeypointIndex.LEFT_SHOULDER),
   (MLKitPose.rightShoulder, KeypointIndex.RIGHT_SHOULDER),
   (MLKitPose.leftElbow, KeypointIndex.LEFT_ELBOW),
   (MLKitPose.rightElbow, KeypointIndex.RIGHT_ELBOW),
   (MLKitPose.leftWrist, KeypointIndex.LEFT_WRIST),
   (MLKitPose.rightWrist, KeypointIndex.RIGHT_WRIST),
   (MLKitPose.leftHip, KeypointIndex.LEFT_HIP),
   (MLKitPose.rightHip, KeypointIndex.RIGHT_HIP),
   (MLKitPose.leftKnee, KeypointIndex.LEFT_KNEE),
   (MLKitPose.rightKnee, KeypointIndex.RIGHT_KNEE),
   (MLKitPose.leftAnkle, KeypointIndex.LEFT_ANKLE),
   (MLKitPose.rightAnkle, KeypointIndex.RIGHT_ANKLE)]

/-- JavaScript array element assignment `a[i] = v` on an array of optional
keypoints: in-range assignment replaces the element; out-of-range assignment
grows the array to length `i+1`, filling the gap with holes (`none`). -/
def jsSet (l : List (Option Keypoint)) (i : ℕ) (v : Keypoint) :
    List (Option Keypoint) :=
  if i < l.length then l.set i (some v)
  else l ++ List.replicate (i - l.length) none ++ [some v]

/-- Whether one mapping row's landmark is present with likelihood above the
threshold — the `mlkitKeypoint && mlkitKeypoint.inFrameLikelihood > 0.3`
guard of `convertMLKitPoseToPose`. -/
def passes (t : ℚ) (p : MLKitPose) (m : MapEntry) : Bool :=
  match m.1 p with
  | some lm => decide (lm.inFrameLikelihood > t)
  | none => false

/-- The likelihood a mapping row contributes to `totalScore` (0 when the
landmark is absent). -/
def entryLik (p : MLKitPose) (m : MapEntry) : ℚ :=
  match m.1 p with
  | some lm => lm.inFrameLikelihood
  | none => 0

/-- The keypoint `convertMLKitPoseToPose` writes for a passing mapping row:
pixel position normalized by the frame dimensions, plus the likelihood. -/
def entryKp (frame : Frame) (p : MLKitPose) (m : MapEntry) : Keypoint :=
  match m.1 p with
  | some lm => ⟨lm.px / frame.width, lm.py / frame.height, lm.inFrameLikelihood⟩
  | none => ⟨0, 0, 0⟩

/-- One iteration of the `keypointMapping.forEach` loop of
`convertMLKitPoseToPose`: on a passing landmark, assign
`keypoints[ourIndex]` (JS semantics) and accumulate `totalScore` and
`validKeypoints`; otherwise leave the accumulator unchanged. -/
def mlkitStep (t : ℚ) (frame : Frame) (p : MLKitPose)
    (acc : List (Option Keypoint) × ℚ × ℕ) (m : MapEntry) :
    List (Option Keypoint) × ℚ × ℕ :=
  match m.1 p with
  | some lm =>
      if lm.inFrameLikelihood > t then
        (jsSet acc.1 m.2 ⟨lm.px / frame.width, lm.py / frame.height,
           lm.inFrameLikelihood⟩,
         acc.2.1 + lm.inFrameLikelihood, acc.2.2 + 1)
      else acc
  | none => acc

/-- `convertMLKitPoseToPose` (`src/services/mlkitPoseDetection.ts`, lines
10-76), parameterized by the keypoint-confidence threshold: initialize 17
sentinel slots, run the mapping loop, compute the mean score over kept
keypoints, and return the pose only when at least 5 keypoints were kept. -/
def convertMLKitPoseToPoseT (t : ℚ) (frame : Frame) (p : MLKitPose) :
    Option Pose :=
  let r := keypointMapping.foldl (mlkitStep t frame p)
    (List.replicate 17 (some ⟨0, 0, 0⟩), 0, 0)
  let poseScore := if r.2.2 > 0 then r.2.1 / (r.2.2 : ℚ) else 0
  if r.2.2 ≥ 5 then some ⟨r.1, poseScore⟩ else none

/-- `convertMLKitPoseToPose` at the source's hard-coded threshold `0.3`. -/
def convertMLKitPoseToPose (frame : Frame) (p : MLKitPose) : Option Pose :=
  convertMLKitPoseToPoseT (3/10) frame p

/-- Number of mapping rows whose landmark passes the gate
(`validKeypoints` in `convertMLKitPoseToPose`). -/
def mlkitCount (t : ℚ) (p : MLKitPose) : ℕ :=
  keypointMapping.countP (passes t p)

theorem jsSet_length (l : List (Option Keypoint)) (i : ℕ) (v : Keypoint) :
    (jsSet l i v).length = max l.length (i + 1) := by
  unfold jsSet
  by_cases h : i < l.length
  · simp [h]; omega
  · simp [h]; omega

theorem jsSet_getD_self (l : List (Option Keypoint)) (i : ℕ) (v : Keypoint) :
    (jsSet l i v).getD i none = some v := by
  unfold jsSet
  by_cases h : i < l.length
  · simp only [if_pos h]
    rw [List.getD_eq_getElem?_getD, List.getElem?_set_self (by simpa using h)]
    simp
  · simp only [if_neg h]
    rw [List.getD_eq_getElem?_getD, List.append_assoc, List.getElem?_append_right (by omega)]
    have : i - l.length < (List.replicate (i - l.length) (none : Option Keypoint) ++ [some v]).length := by
      simp
    rw [List.getElem?_eq_getElem this, List.getElem_append_right (by simp) ]
    simp

theorem jsSet_getD_ne (l : List (Option Keypoint)) (i j : ℕ) (v : Keypoint)
    (hne : j ≠ i) : (jsSet l i v).getD j none = l.getD j none := by
  unfold jsSet
  by_cases h : i < l.length
  · simp only [if_pos h]
    rw [List.getD_eq_getElem?_getD, List.getD_eq_getElem?_getD,
      List.getElem?_set_ne (by omega)]
  · simp only [if_neg h, List.append_assoc]
    rw [List.getD_eq_getElem?_getD, List.getD_eq_getElem?_getD,
      List.getElem?_append]
    by_cases hj : j < l.length
    · rw [if_pos hj]
    · rw [if_neg hj, List.getElem?_eq_none (l := l) (by omega),
        List.getElem?_append]
      by_cases hj2 : j - l.length < (List.replicate (i - l.length) (none : Option Keypoint)).length
      · rw [if_pos hj2]
        simp only [List.getElem?_replicate]
        simp only [List.length_replicate] at hj2
        simp [hj2]
      · rw [if_neg hj2]
        simp only [List.length_replicate] at hj2 ⊢
        have hk : j - l.length - (i - l.length) ≠ 0 := by omega
        rcases k : j - l.length - (i - l.length) with _ | n
        · exact absurd k hk
        · simp [k]

/-- A stored slot holding a keypoint whose confidence is above the
threshold (a kept, non-sentinel keypoint; holes and sentinels fail it). -/
def isHigh (t : ℚ) : Option Keypoint → Bool
  | some k => decide (k.score > t)
  | none => false

theorem countP_set_high (P : Option Keypoint → Bool) (l : List (Option Keypoint)) :
    ∀ (i : ℕ) (v : Keypoint), i < l.length → P (l.getD i none) = false →
    P (some v) = true → (l.set i (some v)).countP P = l.countP P + 1 := by
  induction l with
  | nil => intro i v hi; simp at hi
  | cons a tl ih =>
    intro i v hi hlow hv
    cases i with
    | zero =>
      simp only [List.getD_cons_zero] at hlow
      simp [List.countP_cons, hlow, hv]
    | succ n =>
      simp only [List.getD_cons_succ] at hlow
      simp only [List.set_cons_succ, List.countP_cons,
        ih n v (by simpa using hi) hlow hv]
      omega

theorem countP_jsSet_high (P : Option Keypoint → Bool) (hnone : P none = false)
    (l : List (Option Keypoint)) (i : ℕ) (v : Keypoint)
    (hlow : P (l.getD i none) = false) (hv : P (some v) = true) :
    (jsSet l i v).countP P = l.countP P + 1 := by
  unfold jsSet
  by_cases h : i < l.length
  · rw [if_pos h, countP_set_high P l i v h hlow hv]
  · rw [if_neg h]
    simp only [List.countP_append, List.countP_cons, List.countP_nil, hv]
    have hz : (List.replicate (i - l.length) (none : Option Keypoint)).countP P = 0 := by
      rw [List.countP_eq_zero]
      intro a ha
      rw [List.eq_of_mem_replicate ha]
      simp [hnone]
    simp [hz]

theorem mlkitFold_cnt (t : ℚ) (f : Frame) (p : MLKitPose) (l : List MapEntry) :
    ∀ (kps : List (Option Keypoint)) (tot : ℚ) (cnt : ℕ),
    (l.foldl (mlkitStep t f p) (kps, tot, cnt)).2.2 = cnt + l.countP (passes t p) := by
  induction l with
  | nil => intro kps tot cnt; simp
  | cons m tl ih =>
    intro kps tot cnt
    rcases hm : m.1 p with _ | lm
    · simp [mlkitStep, hm, ih, List.countP_cons, passes]
    · by_cases hl : lm.inFrameLikelihood > t
      · simp [mlkitStep, hm, hl, ih, List.countP_cons, passes]; omega
      · simp [mlkitStep, hm, hl, ih, List.countP_cons, passes]

theorem mlkitFold_tot (t : ℚ) (f : Frame) (p : MLKitPose) (l : List MapEntry) :
    ∀ (kps : List (Option Keypoint)) (tot : ℚ) (cnt : ℕ),
    (l.foldl (mlkitStep t f p) (kps, tot, cnt)).2.1 =
      tot + ((l.filter (passes t p)).map (entryLik p)).sum := by
  induction l with
  | nil => intro kps tot cnt; simp
  | cons m tl ih =>
    intro kps tot cnt
    rcases hm : m.1 p with _ | lm
    · simp [mlkitStep, hm, ih, List.filter_cons, passes]
    · by_cases hl : lm.inFrameLikelihood > t
      · simp only [List.foldl_cons, mlkitStep, hm, if_pos hl, ih,
          List.filter_cons, passes, hl, decide_eq_true_eq, if_true,
          List.map_cons, List.sum_cons, entryLik]
        ring
      · simp [mlkitStep, hm, hl, ih, List.filter_cons, passes]

theorem mlkitFold_len_mono (t : ℚ) (f : Frame) (p : MLKitPose) (l : List MapEntry) :
    ∀ (kps : List (Option Keypoint)) (tot : ℚ) (cnt : ℕ),
    kps.length ≤ (l.foldl (mlkitStep t f p) (kps, tot, cnt)).1.length := by
  induction l with
  | nil => intro kps tot cnt; simp
  | cons m tl ih =>
    intro kps tot cnt
    rcases hm : m.1 p with _ | lm
    · simpa [mlkitStep, hm] using ih kps tot cnt
    · by_cases hl : lm.inFrameLikelihood > t
      · have := ih (jsSet kps m.2 ⟨lm.px / f.width, lm.py / f.height,
          lm.inFrameLikelihood⟩) (tot + lm.inFrameLikelihood) (cnt + 1)
        have hlen := jsSet_length kps m.2 ⟨lm.px / f.width, lm.py / f.height,
          lm.inFrameLikelihood⟩
        simp only [List.foldl_cons, mlkitStep, hm, if_pos hl]
        omega
      · simpa [mlkitStep, hm, hl] using ih kps tot cnt

theorem mlkitFold_len_eq (t : ℚ) (f : Frame) (p : MLKitPose) (l : List MapEntry) :
    ∀ (kps : List (Option Keypoint)) (tot : ℚ) (cnt : ℕ),
    (∀ m ∈ l, passes t p m = true → m.2 < kps.length) →
    (l.foldl (mlkitStep t f p) (kps, tot, cnt)).1.length = kps.length := by
  induction l with
  | nil => intro kps tot cnt _; simp
  | cons m tl ih =>
    intro kps tot cnt hlt
    rcases hm : m.1 p with _ | lm
    · simp only [List.foldl_cons, mlkitStep, hm]
      exact ih kps tot cnt (fun m' hm' => hlt m' (List.mem_cons_of_mem _ hm'))
    · by_cases hl : lm.inFrameLikelihood > t
      · have hmp : passes t p m = true := by simp [passes, hm, hl]
        have hidx : m.2 < kps.length := hlt m (List.mem_cons_self _ _) hmp
        have hlen := jsSet_length kps m.2 ⟨lm.px / f.width, lm.py / f.height,
          lm.inFrameLikelihood⟩
        simp only [List.foldl_cons, mlkitStep, hm, if_pos hl]
        rw [ih _ _ _ (fun m' hm' hp' => by
          rw [hlen]; have := hlt m' (List.mem_cons_of_mem _ hm') hp'; omega)]
        omega
      · simp only [List.foldl_cons, mlkitStep, hm, if_neg hl]
        exact ih kps tot cnt (fun m' hm' => hlt m' (List.mem_cons_of_mem _ hm'))

theorem mlkitFold_len_gt (t : ℚ) (f : Frame) (p : MLKitPose) (l : List MapEntry) :
    ∀ (kps : List (Option Keypoint)) (tot : ℚ) (cnt : ℕ) (m₀ : MapEntry),
    m₀ ∈ l → passes t p m₀ = true → kps.length ≤ m₀.2 →
    kps.length < (l.foldl (mlkitStep t f p) (kps, tot, cnt)).1.length := by
  induction l with
  | nil => intro kps tot cnt m₀ hm₀; simp at hm₀
  | cons m tl ih =>
    intro kps tot cnt m₀ hm₀ hp₀ hge
    rcases List.mem_cons.mp hm₀ with heq | htl
    · subst heq
      rcases hm : m₀.1 p with _ | lm
    
      · simp [passes, hm] at hp₀
      · have hl : lm.inFrameLikelihood > t := by
          simp [passes, hm] at hp₀; exact hp₀
        have hlen := jsSet_length kps m₀.2 ⟨lm.px / f.width, lm.py / f.height,
          lm.inFrameLikelihood⟩
        have hmono := mlkitFold_len_mono t f p tl
          (jsSet kps m₀.2 ⟨lm.px / f.width, lm.py / f.height,
            lm.inFrameLikelihood⟩) (tot + lm.inFrameLikelihood) (cnt + 1)
        simp only [List.foldl_cons, mlkitStep, hm, if_pos hl]
        omega
    · rcases hm : m.1 p with _ | lm
      · simp only [List.foldl_cons, mlkitStep, hm]
        exact ih kps tot cnt m₀ htl hp₀ hge
      · by_cases hl : lm.inFrameLikelihood > t
        · have hlen := jsSet_length kps m.2 ⟨lm.px / f.width, lm.py / f.height,
            lm.inFrameLikelihood⟩
          simp only [List.foldl_cons, mlkitStep, hm, if_pos hl]
          by_cases hc : (jsSet kps m.2 ⟨lm.px / f.width, lm.py / f.height,
              lm.inFrameLikelihood⟩).length ≤ m₀.2
          · have := ih (jsSet kps m.2 ⟨lm.px / f.width, lm.py / f.height,
              lm.inFrameLikelihood⟩) (tot + lm.inFrameLikelihood) (cnt + 1) m₀ htl hp₀ hc
            omega
          · have hmono := mlkitFold_len_mono t f p tl
              (jsSet kps m.2 ⟨lm.px / f.width, lm.py / f.height,
                lm.inFrameLikelihood⟩) (tot + lm.inFrameLikelihood) (cnt + 1)
            omega
        · simp only [List.foldl_cons, mlkitStep, hm, if_neg hl]
          exact ih kps tot cnt m₀ htl hp₀ hge

theorem mlkitFold_getD_frozen (t : ℚ) (f : Frame) (p : MLKitPose)
    (l : List MapEntry) :
    ∀ (kps : List (Option Keypoint)) (tot : ℚ) (cnt : ℕ) (j : ℕ),
    (∀ m ∈ l, passes t p m = true → m.2 ≠ j) →
    (l.foldl (mlkitStep t f p) (kps, tot, cnt)).1.getD j none = kps.getD j none := by
  induction l with
  | nil => intro kps tot cnt j _; simp
  | cons m tl ih =>
    intro kps tot cnt j hne
    rcases hm : m.1 p with _ | lm
    · simp only [List.foldl_cons, mlkitStep, hm]
      exact ih kps tot cnt j (fun m' hm' => hne m' (List.mem_cons_of_mem _ hm'))
    · by_cases hl : lm.inFrameLikelihood > t
      · have hmp : passes t p m = true := by simp [passes, hm, hl]
        have hj : m.2 ≠ j := hne m (List.mem_cons_self _ _) hmp
        simp only [List.foldl_cons, mlkitStep, hm, if_pos hl]
        rw [ih _ _ _ _ (fun m' hm' => hne m' (List.mem_cons_of_mem _ hm')),
          jsSet_getD_ne _ _ _ _ (fun hh => hj hh.symm)]
      · simp only [List.foldl_cons, mlkitStep, hm, if_neg hl]
        exact ih kps tot cnt j (fun m' hm' => hne m' (List.mem_cons_of_mem _ hm'))

theorem mlkitFold_getD_write (t : ℚ) (f : Frame) (p : MLKitPose)
    (l : List MapEntry) :
    ∀ (kps : List (Option Keypoint)) (tot : ℚ) (cnt : ℕ) (m₀ : MapEntry),
    (l.map Prod.snd).Nodup → m₀ ∈ l → passes t p m₀ = true →
    (l.foldl (mlkitStep t f p) (kps, tot, cnt)).1.getD m₀.2 none =
      some (entryKp f p m₀) := by
  induction l with
  | nil => intro kps tot cnt m₀ _ hm₀; simp at hm₀
  | cons m tl ih =>
    intro kps tot cnt m₀ hnd hm₀ hp₀
    have hnotin : m.2 ∉ tl.map Prod.snd := (List.nodup_cons.mp hnd).1
    have hndtl : (tl.map Prod.snd).Nodup := (List.nodup_cons.mp hnd).2
    rcases List.mem_cons.mp hm₀ with heq | htl
    · subst heq
      rcases hm : m₀.1 p with _ | lm
      · simp [passes, hm] at hp₀
      · have hl : lm.inFrameLikelihood > t := by
          simp [passes, hm] at hp₀; exact hp₀
        simp only [List.foldl_cons, mlkitStep, hm, if_pos hl]
        rw [mlkitFold_getD_frozen t f p tl _ _ _ _
          (fun m' hm' _ hcontra => hnotin
            (by rw [← hcontra]; exact List.mem_map_of_mem Prod.snd hm')),
          jsSet_getD_self]
        simp [entryKp, hm]
    · rcases hm : m.1 p with _ | lm
      · simp only [List.foldl_cons, mlkitStep, hm]
        exact ih kps tot cnt m₀ hndtl htl hp₀
      · by_cases hl : lm.inFrameLikelihood > t
        · simp only [List.foldl_cons, mlkitStep, hm, if_pos hl]
          exact ih _ _ _ m₀ hndtl htl hp₀
        · simp only [List.foldl_cons, mlkitStep, hm, if_neg hl]
          exact ih kps tot cnt m₀ hndtl htl hp₀

theorem mlkitFold_countP_high (t : ℚ) (f : Frame) (p : MLKitPose)
    (l : List MapEntry) :
    ∀ (kps : List (Option Keypoint)) (tot : ℚ) (cnt : ℕ),
    (l.map Prod.snd).Nodup →
    (∀ m ∈ l, passes t p m = true → isHigh t (kps.getD m.2 none) = false) →
    (l.foldl (mlkitStep t f p) (kps, tot, cnt)).1.countP (isHigh t) =
      kps.countP (isHigh t) + l.countP (passes t p) := by
  induction l with
  | nil => intro kps tot cnt _ _; simp
  | cons m tl ih =>
    intro kps tot cnt hnd hlow
    have hnotin : m.2 ∉ tl.map Prod.snd := (List.nodup_cons.mp hnd).1
    have hndtl : (tl.map Prod.snd).Nodup := (List.nodup_cons.mp hnd).2
    rcases hm : m.1 p with _ | lm
    · have hmp : passes t p m = false := by simp [passes, hm]
      simp only [List.foldl_cons, mlkitStep, hm, List.countP_cons, hmp]
      rw [ih kps tot cnt hndtl (fun m' hm' => hlow m' (List.mem_cons_of_mem _ hm'))]
      simp
    · by_cases hl : lm.inFrameLikelihood > t
      · have hmp : passes t p m = true := by simp [passes, hm, hl]
        have hkp : isHigh t (some (⟨lm.px / f.width, lm.py / f.height,
            lm.inFrameLikelihood⟩ : Keypoint)) = true := by
          simp [isHigh, hl]
        simp only [List.foldl_cons, mlkitStep, hm, if_pos hl, List.countP_cons, hmp]
        rw [ih _ _ _ hndtl (fun m' hm' hp' => by
          rw [jsSet_getD_ne _ _ _ _
            (fun hcontra => hnotin
              (by rw [← hcontra]; exact List.mem_map_of_mem Prod.snd hm'))]
          exact hlow m' (List.mem_cons_of_mem _ hm') hp'),
          countP_jsSet_high (isHigh t) rfl _ _ _
            (hlow m (List.mem_cons_self _ _) hmp) hkp]
        simp
        omega
      · have hmp : passes t p m = false := by simp [passes, hm, hl]
        simp only [List.foldl_cons, mlkitStep, hm, if_neg hl, List.countP_cons, hmp]
        rw [ih kps tot cnt hndtl (fun m' hm' => hlow m' (List.mem_cons_of_mem _ hm'))]
        simp

/-- The initial 17 sentinel slots of `convertMLKitPoseToPose`. -/
def initSlots : List (Option Keypoint) := List.replicate 17 (some ⟨0, 0, 0⟩)

theorem convertMLKitPoseToPoseT_eq (t : ℚ) (f : Frame) (p : MLKitPose) :
    convertMLKitPoseToPoseT t f p =
      if mlkitCount t p ≥ 5 then
        some ⟨(keypointMapping.foldl (mlkitStep t f p) (initSlots, 0, 0)).1,
              ((keypointMapping.filter (passes t p)).map (entryLik p)).sum /
                (mlkitCount t p : ℚ)⟩
      else none := by
  unfold convertMLKitPoseToPoseT
  rw [show (List.replicate 17 (some (⟨0, 0, 0⟩ : Keypoint)), (0 : ℚ), (0 : ℕ)) =
    (initSlots, (0 : ℚ), (0 : ℕ)) from rfl]
  have hcnt := mlkitFold_cnt t f p keypointMapping initSlots 0 0
  have htot := mlkitFold_tot t f p keypointMapping initSlots 0 0
  by_cases h : mlkitCount t p ≥ 5
  · have hpos : 0 < mlkitCount t p := by omega
    simp only [hcnt, zero_add, mlkitCount] at *
    simp only [htot, zero_add]
    simp [h, hpos, mlkitCount]
  · simp only [hcnt, zero_add, mlkitCount] at *
    simp [h]

theorem keypointMapping_snd :
    keypointMapping.map Prod.snd =
      [0, 2, 5, 7, 8, 11, 12, 13, 14, 15, 16, 23, 24, 25, 26, 27, 28] := rfl

theorem keypointMapping_snd_nodup : (keypointMapping.map Prod.snd).Nodup := by
  rw [keypointMapping_snd]
  decide

theorem getD_initSlots (j : ℕ) :
    initSlots.getD j none = if j < 17 then some ⟨0, 0, 0⟩ else none := by
  by_cases h : j < 17
  · rw [if_pos h, List.getD_eq_getElem?_getD]
    unfold initSlots
    rw [List.getElem?_replicate]
    simp [h]
  · rw [if_neg h, List.getD_eq_getElem?_getD,
      List.getElem?_eq_none (by simp [initSlots]; omega)]
    simp

theorem sum_lt_of_forall_lt (a : ℚ) (l : List ℚ) :
    l ≠ [] → (∀ x ∈ l, a < x) → a * l.length < l.sum := by
  induction l with
  | nil => intro h; exact absurd rfl h
  | cons x tl ih =>
    intro _ hx
    rcases tl with _ | ⟨y, tl⟩
    · simpa using hx x (List.mem_cons_self _ _)
    · have h1 := hx x (List.mem_cons_self _ _)
      have h2 := ih (by simp) (fun z hz => hx z (List.mem_cons_of_mem _ hz))
      simp only [List.sum_cons, List.length_cons] at *
      push_cast
      push_cast at h2
      nlinarith

theorem sum_le_of_forall_le (b : ℚ) (l : List ℚ) :
    (∀ x ∈ l, x ≤ b) → l.sum ≤ b * l.length := by
  induction l with
  | nil => intro _; simp
  | cons x tl ih =>
    intro hx
    have h1 := hx x (List.mem_cons_self _ _)
    have h2 := ih (fun z hz => hx z (List.mem_cons_of_mem _ hz))
    simp only [List.sum_cons, List.length_cons]
    push_cast
    linarith

/-- The Rep Counter phases of spec section 4.4 (the roadmap's squat state
machine; no implementation exists under src/). -/
inductive Phase
  | STANDING
  | DESCENDING
  | BOTTOM
  | ASCENDING
deriving DecidableEq, Repr

/-- Modelled from the spec: the Rep Counter's per-exercise thresholds
(standing angle, bottom angle, minimum dwell time) of an Exercise Profile;
`src/services/repCounter.ts` is planned in the roadmap but absent. -/
structure RepConfig where
  standingThreshold : ℚ
  bottomThreshold : ℚ
  minDwellMs : ℚ
deriving DecidableEq, Repr

/-- Modelled from the spec: the Rep Session State of spec section 3 —
current phase, dwell bookkeeping for the BOTTOM hysteresis, the previous
primary-angle sample, the minimum angle observed during BOTTOM, and the
cumulative full-rep and half-rep counts. -/
structure RepState where
  phase : Phase
  dwellStart : Option ℚ
  lastAngle : Option ℚ
  minAngle : ℚ
  fullReps : ℕ
  halfReps : ℕ
deriving DecidableEq, Repr

/-- A rep-completed or half-rep event (spec section 6); the full-rep event
carries the depth achieved (minimum angle observed during BOTTOM). -/
inductive RepEvent
  | fullRep (depth : ℚ)
  | halfRep
deriving DecidableEq, Repr

/-- The initial Rep Session State: STANDING, no history, zero counts. -/
def initRepState : RepState :=
  { phase := .STANDING, dwellStart := none, lastAngle := none,
    minAngle := 180, fullReps := 0, halfReps := 0 }

/-- Modelled from the spec: one advance of the Rep Counter state machine of
spec section 4.4 (absent from src/; the roadmap sketches it for
`src/services/repCounter.ts`). An absent observation (`none`) holds the
current state. From STANDING, an angle below `standingThreshold` starts a
descent. In DESCENDING, an angle at most `bottomThreshold` starts (or
continues) the dwell clock, and BOTTOM is entered once the angle has stayed
in the bottom band for at least `minDwellMs`; an angle back at or above
`standingThreshold` completes the cycle without depth and emits a half-rep;
leaving the bottom band resets the dwell clock. In BOTTOM, an increase over
the previous sample starts the ascent, and the depth (minimum bottom angle)
is tracked. From ASCENDING, an angle at or above `standingThreshold`
completes the rep: the full-rep counter is incremented and a full-rep event
carrying the depth is emitted. -/
def repStep (cfg : RepConfig) (st : RepState) (now : ℚ) (obs : Option ℚ) :
    RepState × Option RepEvent :=
  match obs with
  | none => (st, none)
  | some angle =>
    match st.phase with
    | .STANDING =>
        if angle < cfg.standingThreshold then
          ({ st with
              phase := .DESCENDING
              dwellStart := none
              lastAngle := some angle }, none)
        else ({ st with lastAngle := some angle }, none)
    | .DESCENDING =>
        if angle ≤ cfg.bottomThreshold then
          match st.dwellStart with
          | none =>
              ({ st with
                  dwellStart := some now
                  lastAngle := some angle }, none)
          | some t0 =>
              if now - t0 ≥ cfg.minDwellMs then
                ({ st with
                    phase := .BOTTOM
                    minAngle := angle
                    lastAngle := some angle }, none)
              else ({ st with lastAngle := some angle }, none)
        else if angle ≥ cfg.standingThreshold then
          ({ st with
              phase := .STANDING
              dwellStart := none
              halfReps := st.halfReps + 1
              lastAngle := some angle },
           some .halfRep)
        else
          ({ st with
              dwellStart := none
              lastAngle := some angle }, none)
    | .BOTTOM =>
        match st.lastAngle with
        | some prev =>
            if angle > prev then
              ({ st with
                  phase := .ASCENDING
                  lastAngle := some angle }, none)
            else ({ st with
                     minAngle := min st.minAngle angle
                     lastAngle := some angle }, none)
        | none =>
            ({ st with
                minAngle := min st.minAngle angle
                lastAngle := some angle }, none)
    | .ASCENDING =>
        if angle ≥ cfg.standingThreshold then
          ({ st with
              phase := .STANDING
              dwellStart := none
              fullReps := st.fullReps + 1
              lastAngle := some angle },
           some (.fullRep st.minAngle))
        else ({ st with lastAngle := some angle }, none)

/-- Run the Rep Counter over a list of timestamped observations, returning
the final state. -/
def runRep (cfg : RepConfig) (st : RepState) (l : List (ℚ × Option ℚ)) :
    RepState :=
  l.foldl (fun s o => (repStep cfg s o.1 o.2).1) st

/-- Run the Rep Counter over a list of timestamped observations, collecting
the emitted events in order. -/
def runRepEvents (cfg : RepConfig) (st : RepState) (l : List (ℚ × Option ℚ)) :
    List RepEvent :=
  (l.foldl (fun (acc : RepState × List RepEvent) o =>
    ((repStep cfg acc.1 o.1 o.2).1,
     acc.2 ++ ((repStep cfg acc.1 o.1 o.2).2).toList)) (st, [])).2

theorem repStep_fullRep (cfg : RepConfig) (st : RepState) (now : ℚ)
    (obs : Option ℚ) (d : ℚ)
    (h : (repStep cfg st now obs).2 = some (.fullRep d)) :
    st.phase = .ASCENDING ∧ (repStep cfg st now obs).1.phase = .STANDING := by
  rcases obs with _ | angle
  · simp [repStep] at h
  · rcases hp : st.phase with _ | _ | _ | _
    · simp only [repStep, hp] at h
      split_ifs at h <;> simp at h
    · rcases hd : st.dwellStart with _ | t0 <;>
        simp only [repStep, hp, hd] at h <;>
        split_ifs at h <;> simp at h
    · rcases hl : st.lastAngle with _ | prev
      · simp only [repStep, hp, hl] at h
        simp at h
      · simp only [repStep, hp, hl] at h
        split_ifs at h <;> simp at h
    · simp only [repStep, hp] at h ⊢
      split_ifs at h ⊢ <;> simp_all

theorem repStep_standing (cfg : RepConfig) (st : RepState) (now : ℚ)
    (obs : Option ℚ) (h : st.phase = .STANDING) :
    (repStep cfg st now obs).1.phase = .STANDING ∨
    (repStep cfg st now obs).1.phase = .DESCENDING := by
  rcases obs with _ | angle
  · simp [repStep, h]
  · simp only [repStep, h]
    split_ifs <;> simp

theorem runRep_append (cfg : RepConfig) (st : RepState)
    (l1 l2 : List (ℚ × Option ℚ)) :
    runRep cfg st (l1 ++ l2) = runRep cfg (runRep cfg st l1) l2 := by
  simp [runRep, List.foldl_append]

theorem reach_descending (cfg : RepConfig) (l : List (ℚ × Option ℚ)) :
    ∀ (st : RepState), st.phase = .STANDING →
    (runRep cfg st l).phase = .ASCENDING ∨ (runRep cfg st l).phase = .BOTTOM ∨
      (runRep cfg st l).phase = .DESCENDING →
    ∃ k, 1 ≤ k ∧ k ≤ l.length ∧ (runRep cfg st (l.take k)).phase = .DESCENDING := by
  induction l with
  | nil =>
    intro st hst hfin
    simp only [runRep, List.foldl_nil] at hfin
    rcases hfin with h | h | h <;> rw [hst] at h <;> exact absurd h (by simp)
  | cons o tl ih =>
    intro st hst hfin
    have hstep := repStep_standing cfg st o.1 o.2 hst
    rcases hstep with h1 | h1
    · have hfin' : (runRep cfg ((repStep cfg st o.1 o.2).1) tl).phase = .ASCENDING ∨
          (runRep cfg ((repStep cfg st o.1 o.2).1) tl).phase = .BOTTOM ∨
          (runRep cfg ((repStep cfg st o.1 o.2).1) tl).phase = .DESCENDING := by
        simpa [runRep] using hfin
      obtain ⟨k, hk1, hk2, hk3⟩ := ih _ h1 hfin'
      refine ⟨k + 1, by omega, by simp; omega, ?_⟩
      simpa [runRep] using hk3
    · refine ⟨1, le_refl 1, by simp, ?_⟩
      simpa [runRep] using h1

/-- A 2-D point (landmark position) for the Angle Engine. -/
structure Pt where
  x : ℚ
  y : ℚ
deriving DecidableEq, Repr

/-- The Angle Engine's typed error conditions (spec section 6). -/
inductive AngleError
  | DegenerateAngle
  | InsufficientPrecision
deriving DecidableEq, Repr

/-- Modelled from the spec: `angleBetween(a, b, c)` of spec section 4.2 —
the Angle Engine is planned for `src/utils/angleCalculations.ts` in the
roadmap but absent from src/. The interior angle at vertex `b` between the
rays `b` to `a` and `b` to `c`, in degrees, via the dot-product/arccosine
identity on the 2-D vectors; degenerate input (either vector of zero
length, i.e. two landmarks coincide) is the `DegenerateAngle` error, not a
silent 0 or NaN. -/
noncomputable def angleBetween (a b c : Pt) : Except AngleError ℝ :=
  if (a.x - b.x = 0 ∧ a.y - b.y = 0) ∨ (c.x - b.x = 0 ∧ c.y - b.y = 0) then
    .error .DegenerateAngle
  else
    .ok (Real.arccos
      ((((a.x - b.x) * (c.x - b.x) + (a.y - b.y) * (c.y - b.y) : ℚ) : ℝ) /
        (Real.sqrt (((a.x - b.x)^2 + (a.y - b.y)^2 : ℚ) : ℝ) *
         Real.sqrt (((c.x - b.x)^2 + (c.y - b.y)^2 : ℚ) : ℝ))) *
      (180 / Real.pi))

theorem angleBetween_degenerate (a b c : Pt) (h : a = b ∨ c = b) :
    angleBetween a b c = .error .DegenerateAngle := by
  unfold angleBetween
  rcases h with h | h <;> subst h <;> simp

theorem angleBetween_ok (a b c : Pt) (ha : a ≠ b) (hc : c ≠ b) :
    angleBetween a b c =
      .ok (Real.arccos
        ((((a.x - b.x) * (c.x - b.x) + (a.y - b.y) * (c.y - b.y) : ℚ) : ℝ) /
          (Real.sqrt (((a.x - b.x)^2 + (a.y - b.y)^2 : ℚ) : ℝ) *
           Real.sqrt (((c.x - b.x)^2 + (c.y - b.y)^2 : ℚ) : ℝ))) *
        (180 / Real.pi)) := by
  unfold angleBetween
  rw [if_neg]
  push_neg
  constructor
  · intro h1 h2
    exact ha (by cases a; cases b; simp at h1 h2 ⊢; constructor <;> linarith)
  · intro h1 h2
    exact hc (by cases c; cases b; simp at h1 h2 ⊢; constructor <;> linarith)

theorem angleBetween_mem_range (a b c : Pt) (ha : a ≠ b) (hc : c ≠ b) :
    ∃ θ : ℝ, angleBetween a b c = .ok θ ∧ 0 ≤ θ ∧ θ ≤ 180 := by
  rw [angleBetween_ok a b c ha hc]
  refine ⟨_, rfl, ?_, ?_⟩
  · have h1 := Real.arccos_nonneg
      ((((a.x - b.x) * (c.x - b.x) + (a.y - b.y) * (c.y - b.y) : ℚ) : ℝ) /
        (Real.sqrt (((a.x - b.x)^2 + (a.y - b.y)^2 : ℚ) : ℝ) *
         Real.sqrt (((c.x - b.x)^2 + (c.y - b.y)^2 : ℚ) : ℝ)))
    have h2 : (0:ℝ) < 180 / Real.pi := by positivity
    positivity
  · have h1 := Real.arccos_le_pi
      ((((a.x - b.x) * (c.x - b.x) + (a.y - b.y) * (c.y - b.y) : ℚ) : ℝ) /
        (Real.sqrt (((a.x - b.x)^2 + (a.y - b.y)^2 : ℚ) : ℝ) *
         Real.sqrt (((c.x - b.x)^2 + (c.y - b.y)^2 : ℚ) : ℝ)))
    have h2 : (0:ℝ) < 180 / Real.pi := by positivity
    calc Real.arccos _ * (180 / Real.pi) ≤ Real.pi * (180 / Real.pi) := by
          exact mul_le_mul_of_nonneg_right h1 (le_of_lt h2)
      _ = 180 := by
          field_simp

theorem angleBetween_perp (a b c : Pt) (ha : a ≠ b) (hc : c ≠ b)
    (hdot : (a.x - b.x) * (c.x - b.x) + (a.y - b.y) * (c.y - b.y) = 0) :
    angleBetween a b c = .ok 90 := by
  rw [angleBetween_ok a b c ha hc]
  congr 1
  have h0 : (((a.x - b.x) * (c.x - b.x) + (a.y - b.y) * (c.y - b.y) : ℚ) : ℝ) = 0 := by
    rw [hdot]; simp
  rw [h0, zero_div, Real.arccos_zero]
  have hpi : Real.pi ≠ 0 := Real.pi_ne_zero
  field_simp
  ring

theorem angleBetween_between (a b c : Pt) (t : ℚ) (ht : 0 < t)
    (hx : a.x - b.x = -t * (c.x - b.x)) (hy : a.y - b.y = -t * (c.y - b.y))
    (hcb : c ≠ b) : angleBetween a b c = .ok 180 := by
  have huv : ¬(c.x - b.x = 0 ∧ c.y - b.y = 0) := by
    rintro ⟨h1, h2⟩
    exact hcb (by cases c; cases b; simp at h1 h2 ⊢; constructor <;> linarith)
  have ht' : t ≠ 0 := ne_of_gt ht
  have hab : a ≠ b := by
    intro h
    apply huv
    have hx0 : -t * (c.x - b.x) = 0 := by rw [← hx, h]; ring
    have hy0 : -t * (c.y - b.y) = 0 := by rw [← hy, h]; ring
    constructor
    · rcases mul_eq_zero.mp hx0 with h' | h'
      · exact absurd (neg_eq_zero.mp h') ht'
      · exact h'
    · rcases mul_eq_zero.mp hy0 with h' | h'
      · exact absurd (neg_eq_zero.mp h') ht'
      · exact h'
  have hnum : ((a.x - b.x) * (c.x - b.x) + (a.y - b.y) * (c.y - b.y) : ℚ) =
      -t * ((c.x - b.x)^2 + (c.y - b.y)^2) := by rw [hx, hy]; ring
  have hsq1 : ((a.x - b.x)^2 + (a.y - b.y)^2 : ℚ) =
      t^2 * ((c.x - b.x)^2 + (c.y - b.y)^2) := by rw [hx, hy]; ring
  rw [angleBetween_ok a b c hab hcb, hnum, hsq1]
  congr 1
  have hq0 : (0:ℚ) < (c.x - b.x)^2 + (c.y - b.y)^2 := by
    rcases not_and_or.mp huv with h | h
    · have := pow_two_pos_of_ne_zero h
      nlinarith [sq_nonneg (c.y - b.y)]
    · have := pow_two_pos_of_ne_zero h
      nlinarith [sq_nonneg (c.x - b.x)]
  have hqR : (0:ℝ) < (((c.x - b.x)^2 + (c.y - b.y)^2 : ℚ) : ℝ) := by
    exact_mod_cast hq0
  have htR : (0:ℝ) < (t : ℝ) := by exact_mod_cast ht
  have e1 : ((-t * ((c.x - b.x)^2 + (c.y - b.y)^2) : ℚ) : ℝ) =
      -((t:ℝ) * (((c.x - b.x)^2 + (c.y - b.y)^2 : ℚ) : ℝ)) := by
    push_cast; ring
  have e2 : ((t^2 * ((c.x - b.x)^2 + (c.y - b.y)^2) : ℚ) : ℝ) =
      (t:ℝ)^2 * (((c.x - b.x)^2 + (c.y - b.y)^2 : ℚ) : ℝ) := by
    push_cast; ring
  rw [e1, e2, Real.sqrt_mul (sq_nonneg _), Real.sqrt_sq (le_of_lt htR)]
  have hss : Real.sqrt (((c.x - b.x)^2 + (c.y - b.y)^2 : ℚ) : ℝ) *
      Real.sqrt (((c.x - b.x)^2 + (c.y - b.y)^2 : ℚ) : ℝ) =
      (((c.x - b.x)^2 + (c.y - b.y)^2 : ℚ) : ℝ) :=
    Real.mul_self_sqrt (le_of_lt hqR)
  rw [mul_assoc, hss]
  rw [neg_div, div_self (ne_of_gt (mul_pos htR hqR)), Real.arccos_neg_one]
  have hpi : Real.pi ≠ 0 := Real.pi_ne_zero
  field_simp

/-- The mutable flags of `MLKitPoseDetectionService`
(`src/services/mlkitPoseDetection.ts`, lines 82-84). -/
structure MLKitService where
  isInitialized : Bool
  isLoading : Bool
deriving DecidableEq, Repr

/-- `MLKitPoseDetectionService.isReady` (lines 124-126). -/
def isReady (s : MLKitService) : Bool := s.isInitialized

/-- `MLKitPoseDetectionService.processFrame` (lines 133-150): return null
when not initialized or when the pose list is null (`none`) or empty;
otherwise convert the first detected pose. The service state is returned
alongside the result to make the absence of mutation explicit. -/
def processFrame (s : MLKitService) (frame : Frame)
    (mlkitPoses : Option (List MLKitPose)) : Option Pose × MLKitService :=
  if !(isReady s) then (none, s)
  else
    match mlkitPoses with
    | none => (none, s)
    | some [] => (none, s)
    | some (p :: _) => (convertMLKitPoseToPose frame p, s)

theorem countP_mono_of_imp {α : Type} (p q : α → Bool) (l : List α)
    (h : ∀ a ∈ l, p a = true → q a = true) : l.countP p ≤ l.countP q := by
  induction l with
  | nil => simp
  | cons a tl ih =>
    have ht := ih (fun x hx => h x (List.mem_cons_of_mem _ hx))
    by_cases hp : p a = true
    · have hq := h a (List.mem_cons_self _ _) hp
      simp [List.countP_cons, hp, hq]
      omega
    · simp only [List.countP_cons]
      have hp' : ¬(p a = true) := hp
      simp only [hp', if_false]
      by_cases hq : q a = true <;> simp [hq] <;> omega

/-- Claim C1: for every detector output with fewer than 5 keypoints above
the 0.3 confidence threshold, normalization returns absence (null), never a
Pose; with at least 5 such keypoints it returns a Pose — for both the
MoveNet path (`detectPose`) and the ML Kit path (`convertMLKitPoseToPose`). -/
theorem claim_C1 :
    (∀ arr : ℕ → ℚ,
      (movenetCount MIN_KEYPOINT_SCORE arr < 5 → detectPose arr = none) ∧
      (5 ≤ movenetCount MIN_KEYPOINT_SCORE arr → ∃ p, detectPose arr = some p)) ∧
    (∀ (f : Frame) (q : MLKitPose),
      (mlkitCount (3/10) q < 5 → convertMLKitPoseToPose f q = none) ∧
      (5 ≤ mlkitCount (3/10) q → ∃ p, convertMLKitPoseToPose f q = some p)) := by
  constructor
  · intro arr
    rw [detectPose, detectPoseT_eq]
    constructor
    · intro h
      rw [if_neg (by omega)]
    · intro h
      rw [if_pos h]
      exact ⟨_, rfl⟩
  · intro f q
    rw [convertMLKitPoseToPose, convertMLKitPoseToPoseT_eq]
    constructor
    · intro h
      rw [if_neg (by omega)]
    · intro h
      rw [if_pos h]
      exact ⟨_, rfl⟩

/-- A MoveNet output array with every third entry (the confidence) 1/2:
all 17 keypoints clear the threshold. -/
def wArr : ℕ → ℚ := fun i => if i % 3 = 2 then 1/2 else 0

/-- A MoveNet output array that is identically zero: no keypoint clears
the threshold. -/
def zeroArr : ℕ → ℚ := fun _ => 0

theorem claim_C1_witness :
    (∃ p, detectPose wArr = some p) ∧ detectPose zeroArr = none := by
  constructor
  · refine (claim_C1.1 wArr).2 ?_
    norm_num [movenetCount, movenetKept, wArr, List.range_succ,
      MIN_KEYPOINT_SCORE]
  · refine (claim_C1.1 zeroArr).1 ?_
    norm_num [movenetCount, movenetKept, zeroArr, List.range_succ,
      MIN_KEYPOINT_SCORE]

/-- Claim C3: for every Pose returned by normalization, the aggregate score
is the arithmetic mean of the confidences of exactly the keypoints that
cleared the 0.3 threshold — sentinel keypoints contribute to neither the
sum nor the divisor — on both the MoveNet and the ML Kit path. -/
theorem claim_C3 :
    (∀ (arr : ℕ → ℚ) (p : Pose), detectPose arr = some p →
      p.score = meanQ ((movenetKept MIN_KEYPOINT_SCORE arr).map
        (fun i => arr (i*3+2)))) ∧
    (∀ (f : Frame) (q : MLKitPose) (p : Pose),
      convertMLKitPoseToPose f q = some p →
      p.score = meanQ ((keypointMapping.filter (passes (3/10) q)).map
        (entryLik q))) := by
  constructor
  · intro arr p hp
    rw [detectPose, detectPoseT_eq] at hp
    by_cases h : movenetCount MIN_KEYPOINT_SCORE arr ≥ 5
    · rw [if_pos h] at hp
      cases hp
      simp [meanQ, movenetCount]
    · rw [if_neg h] at hp
      cases hp
  · intro f q p hp
    rw [convertMLKitPoseToPose, convertMLKitPoseToPoseT_eq] at hp
    by_cases h : mlkitCount (3/10) q ≥ 5
    · rw [if_pos h] at hp
      cases hp
      simp [meanQ, mlkitCount, List.countP_eq_length_filter]
    · rw [if_neg h] at hp
      cases hp

theorem claim_C3_witness :
    ∃ p, detectPose wArr = some p ∧
      p.score = meanQ ((movenetKept MIN_KEYPOINT_SCORE wArr).map
        (fun i => wArr (i*3+2))) := by
  obtain ⟨p, hp⟩ : ∃ p, detectPose wArr = some p := by
    rw [detectPose, detectPoseT_eq, if_pos (by
      norm_num [movenetCount, movenetKept, wArr, List.range_succ,
        MIN_KEYPOINT_SCORE])]
    exact ⟨_, rfl⟩
  exact ⟨p, hp, claim_C3.1 wArr p hp⟩

/-- Claim C4: the detector-to-canonical mapping is total (each of the 17
canonical landmarks has a source entry, and no two rows collide) and
deterministic: equal frames and equal ML Kit poses produce equal Poses, and
each detector landmark always lands at the same canonical index (the
mapping table is the fixed list of target indices). -/
theorem claim_C4 :
    (∀ i ∈ canonicalIndices, i ∈ keypointMapping.map Prod.snd) ∧
    (keypointMapping.map Prod.snd).Nodup ∧
    (∀ (f1 f2 : Frame) (p1 p2 : MLKitPose), f1 = f2 → p1 = p2 →
      convertMLKitPoseToPose f1 p1 = convertMLKitPoseToPose f2 p2) := by
  refine ⟨?_, keypointMapping_snd_nodup, ?_⟩
  · rw [keypointMapping_snd]
    decide
  · intro f1 f2 p1 p2 hf hp
    rw [hf, hp]

theorem claim_C4_witness :
    KeypointIndex.LEFT_HIP ∈ keypointMapping.map Prod.snd := by
  exact claim_C4.1 KeypointIndex.LEFT_HIP (by decide)

/-- Claim C5: confidence gating is monotonic in the threshold — with the
normalization functions parameterized by the keypoint-confidence threshold,
for thresholds t1 at most t2, every keypoint kept under t2 is kept under
t1, and any detector output that yields a Pose under t2 yields one under
t1; on both the MoveNet and the ML Kit path. -/
theorem claim_C5 (t1 t2 : ℚ) (h : t1 ≤ t2) :
    (∀ (arr : ℕ → ℚ) (i : ℕ), i ∈ movenetKept t2 arr → i ∈ movenetKept t1 arr) ∧
    (∀ (arr : ℕ → ℚ) (p2 : Pose), detectPoseT t2 arr = some p2 →
      ∃ p1, detectPoseT t1 arr = some p1) ∧
    (∀ (q : MLKitPose) (m : MapEntry), m ∈ keypointMapping →
      passes t2 q m = true → passes t1 q m = true) ∧
    (∀ (f : Frame) (q : MLKitPose) (p2 : Pose),
      convertMLKitPoseToPoseT t2 f q = some p2 →
      ∃ p1, convertMLKitPoseToPoseT t1 f q = some p1) := by
  have hpass : ∀ (q : MLKitPose) (m : MapEntry),
      passes t2 q m = true → passes t1 q m = true := by
    intro q m hm
    unfold passes at hm ⊢
    rcases hlm : m.1 q with _ | lm
    · rw [hlm] at hm; exact absurd hm (by simp)
    · rw [hlm] at hm
      simp only [decide_eq_true_eq] at hm ⊢
      linarith
  have hkept : ∀ (arr : ℕ → ℚ) (i : ℕ),
      i ∈ movenetKept t2 arr → i ∈ movenetKept t1 arr := by
    intro arr i hi
    unfold movenetKept at hi ⊢
    rw [List.mem_filter] at hi ⊢
    refine ⟨hi.1, ?_⟩
    have := hi.2
    simp only [decide_eq_true_eq] at this ⊢
    linarith
  refine ⟨hkept, ?_, fun q m _ => hpass q m, ?_⟩
  · intro arr p2 hp2
    rw [detectPoseT_eq] at hp2 ⊢
    by_cases h2 : movenetCount t2 arr ≥ 5
    · have h1 : movenetCount t1 arr ≥ 5 := by
        have hmono : movenetCount t2 arr ≤ movenetCount t1 arr := by
          unfold movenetCount movenetKept
          rw [← List.countP_eq_length_filter, ← List.countP_eq_length_filter]
          refine countP_mono_of_imp _ _ _ (fun i _ hi => ?_)
          simp only [decide_eq_true_eq] at hi ⊢
          linarith
        omega
      rw [if_pos h1]
      exact ⟨_, rfl⟩
    · rw [if_neg h2] at hp2
      cases hp2
  · intro f q p2 hp2
    rw [convertMLKitPoseToPoseT_eq] at hp2 ⊢
    by_cases h2 : mlkitCount t2 q ≥ 5
    · have h1 : mlkitCount t1 q ≥ 5 := by
        have hmono : mlkitCount t2 q ≤ mlkitCount t1 q :=
          countP_mono_of_imp _ _ _ (fun m _ hm => hpass q m hm)
        omega
      rw [if_pos h1]
      exact ⟨_, rfl⟩
    · rw [if_neg h2] at hp2
      cases hp2

theorem claim_C5_witness :
    (3:ℚ)/10 ≤ 7/10 ∧
    (∀ (arr : ℕ → ℚ) (i : ℕ),
      i ∈ movenetKept (7/10) arr → i ∈ movenetKept (3/10) arr) := by
  refine ⟨by norm_num, (claim_C5 (3/10) (7/10) (by norm_num)).1⟩

theorem isHigh_movenetSlot (t : ℚ) (ht : 0 ≤ t) (arr : ℕ → ℚ) (i : ℕ) :
    isHigh t (some (movenetSlot t arr i)) = decide (arr (i*3+2) > t) := by
  unfold movenetSlot
  by_cases h : arr (i*3+2) > t
  · simp [isHigh, h]
  · simp only [if_neg h, isHigh]
    have hs : ¬((⟨0, 0, 0⟩ : Keypoint).score > t) := by
      show ¬((0:ℚ) > t)
      linarith
    rw [decide_eq_false hs, decide_eq_false h]

theorem isHigh_sentinel (t : ℚ) (ht : 0 ≤ t) :
    isHigh t (some ⟨0, 0, 0⟩) = false := by
  simp only [isHigh, decide_eq_false_iff_not]
  intro hc
  simp at hc
  linarith

theorem countP_ext {α : Type} (p q : α → Bool) (l : List α)
    (h : ∀ a ∈ l, p a = q a) : l.countP p = l.countP q :=
  le_antisymm
    (countP_mono_of_imp p q l (fun a ha hp => by rw [← h a ha]; exact hp))
    (countP_mono_of_imp q p l (fun a ha hq => by rw [h a ha]; exact hq))

theorem countP_isHigh_initSlots (t : ℚ) (ht : 0 ≤ t) :
    initSlots.countP (isHigh t) = 0 := by
  rw [List.countP_eq_zero]
  intro a ha
  rw [List.eq_of_mem_replicate ha, isHigh_sentinel t ht]
  simp

/-- Claim C9: every Pose returned by either normalization path has an
aggregate score strictly greater than 0.3 and at most 1, and contains at
least 5 keypoints with confidence strictly above 0.3, assuming every source
confidence lies in [0,1]. -/
theorem claim_C9 :
    (∀ (arr : ℕ → ℚ) (p : Pose),
      (∀ i, i < 17 → 0 ≤ arr (i*3+2) ∧ arr (i*3+2) ≤ 1) →
      detectPose arr = some p →
      3/10 < p.score ∧ p.score ≤ 1 ∧
        5 ≤ p.keypoints.countP (isHigh (3/10))) ∧
    (∀ (f : Frame) (q : MLKitPose) (p : Pose),
      (∀ m ∈ keypointMapping, 0 ≤ entryLik q m ∧ entryLik q m ≤ 1) →
      convertMLKitPoseToPose f q = some p →
      3/10 < p.score ∧ p.score ≤ 1 ∧
        5 ≤ p.keypoints.countP (isHigh (3/10))) := by
  constructor
  · intro arr p hb hp
    rw [detectPose, detectPoseT_eq] at hp
    by_cases h5 : movenetCount MIN_KEYPOINT_SCORE arr ≥ 5
    · rw [if_pos h5] at hp
      cases hp
      have hL : ∀ x ∈ (movenetKept MIN_KEYPOINT_SCORE arr).map
          (fun i => arr (i*3+2)), 3/10 < x ∧ x ≤ 1 := by
        intro x hx
        rw [List.mem_map] at hx
        obtain ⟨i, hi, hxi⟩ := hx
        unfold movenetKept at hi
        rw [List.mem_filter] at hi
        have hlt : i < 17 := by
          have := hi.1; rw [List.mem_range] at this; exact this
        have hkept : arr (i*3+2) > MIN_KEYPOINT_SCORE := by
          have := hi.2; simpa using this
        subst hxi
        exact ⟨by simpa [MIN_KEYPOINT_SCORE] using hkept, (hb i hlt).2⟩
      have hlen : ((movenetKept MIN_KEYPOINT_SCORE arr).map
          (fun i => arr (i*3+2))).length = movenetCount MIN_KEYPOINT_SCORE arr := by
        simp [movenetCount]
      have hne : (movenetKept MIN_KEYPOINT_SCORE arr).map
          (fun i => arr (i*3+2)) ≠ [] := by
        intro hcon
        rw [← List.length_eq_zero] at hcon
        omega
      have hsum_lt := sum_lt_of_forall_lt (3/10) _ hne (fun x hx => (hL x hx).1)
      have hsum_le := sum_le_of_forall_le 1 _ (fun x hx => (hL x hx).2)
      have hnpos : (0:ℚ) < (movenetCount MIN_KEYPOINT_SCORE arr : ℚ) := by
        exact_mod_cast Nat.lt_of_lt_of_le (by norm_num) h5
      rw [hlen] at hsum_lt hsum_le
      refine ⟨?_, ?_, ?_⟩
      · rw [lt_div_iff hnpos]
        exact hsum_lt
      · rw [div_le_one hnpos]
        linarith
      · have hmap : ((List.range 17).map
            (fun i => some (movenetSlot MIN_KEYPOINT_SCORE arr i))).countP
              (isHigh (3/10)) = movenetCount MIN_KEYPOINT_SCORE arr := by
          rw [List.countP_map]
          have hpt : ∀ i ∈ List.range 17,
              (isHigh (3/10) ∘ fun i => some (movenetSlot MIN_KEYPOINT_SCORE arr i)) i =
              (fun i => decide (arr (i*3+2) > MIN_KEYPOINT_SCORE)) i := by
            intro i _
            simp only [Function.comp]
            rw [show (3:ℚ)/10 = MIN_KEYPOINT_SCORE from rfl]
            exact isHigh_movenetSlot MIN_KEYPOINT_SCORE (by norm_num [MIN_KEYPOINT_SCORE]) arr i
          rw [countP_ext _ _ _ hpt]
          rw [List.countP_eq_length_filter]
          rfl
        rw [hmap]
        exact h5
    · rw [if_neg h5] at hp
      cases hp
  · intro f q p hb hp
    rw [convertMLKitPoseToPose, convertMLKitPoseToPoseT_eq] at hp
    by_cases h5 : mlkitCount (3/10) q ≥ 5
    · rw [if_pos h5] at hp
      cases hp
      have hL : ∀ x ∈ (keypointMapping.filter (passes (3/10) q)).map (entryLik q),
          3/10 < x ∧ x ≤ 1 := by
        intro x hx
        rw [List.mem_map] at hx
        obtain ⟨m, hm, hxm⟩ := hx
        rw [List.mem_filter] at hm
        have hmem := hm.1
        have hpass := hm.2
        subst hxm
        constructor
        · unfold passes at hpass
          unfold entryLik
          rcases hlm : m.1 q with _ | lm
          · rw [hlm] at hpass; exact absurd hpass (by simp)
          · rw [hlm] at hpass
            simpa using hpass
        · exact (hb m hmem).2
      have hlen : ((keypointMapping.filter (passes (3/10) q)).map
          (entryLik q)).length = mlkitCount (3/10) q := by
        simp [mlkitCount, List.countP_eq_length_filter]
      have hne : (keypointMapping.filter (passes (3/10) q)).map (entryLik q) ≠ [] := by
        intro hcon
        rw [← List.length_eq_zero] at hcon
        omega
      have hsum_lt := sum_lt_of_forall_lt (3/10) _ hne (fun x hx => (hL x hx).1)
      have hsum_le := sum_le_of_forall_le 1 _ (fun x hx => (hL x hx).2)
      have hnpos : (0:ℚ) < (mlkitCount (3/10) q : ℚ) := by
        exact_mod_cast Nat.lt_of_lt_of_le (by norm_num) h5
      rw [hlen] at hsum_lt hsum_le
      refine ⟨?_, ?_, ?_⟩
      · rw [lt_div_iff hnpos]
        exact hsum_lt
      · rw [div_le_one hnpos]
        linarith
      · have hcount := mlkitFold_countP_high (3/10) f q keypointMapping
          initSlots 0 0 keypointMapping_snd_nodup (fun m _ hm => by
            rw [getD_initSlots]
            by_cases hj : m.2 < 17
            · rw [if_pos hj]
              simp [isHigh]
              norm_num
            · rw [if_neg hj]
              simp [isHigh])
        rw [hcount, countP_isHigh_initSlots (3/10) (by norm_num)]
        simpa [mlkitCount] using h5
    · rw [if_neg h5] at hp
      cases hp

theorem claim_C9_witness :
    ∃ p, detectPose wArr = some p ∧ 3/10 < p.score ∧ p.score ≤ 1 ∧
      5 ≤ p.keypoints.countP (isHigh (3/10)) := by
  obtain ⟨p, hp⟩ : ∃ p, detectPose wArr = some p := by
    rw [detectPose, detectPoseT_eq, if_pos (by
      norm_num [movenetCount, movenetKept, wArr, List.range_succ,
        MIN_KEYPOINT_SCORE])]
    exact ⟨_, rfl⟩
  have hb : ∀ i, i < 17 → 0 ≤ wArr (i*3+2) ∧ wArr (i*3+2) ≤ 1 := by
    intro i _
    have hm : (i*3+2) % 3 = 2 := by omega
    simp [wArr, hm]
    norm_num
  exact ⟨p, hp, claim_C9.1 wArr p hb hp⟩

theorem getD_map_range (n : ℕ) (g : ℕ → Option Keypoint) (i : ℕ) (h : i < n) :
    ((List.range n).map g).getD i none = g i := by
  rw [List.getD_eq_getElem?_getD, List.getElem?_map, List.getElem?_range h]
  simp

theorem detectPoseT_slots (t : ℚ) (arr : ℕ → ℚ) (p : Pose)
    (h : detectPoseT t arr = some p) :
    p.keypoints.length = 17 ∧
    ∀ i, i < 17 → p.keypoints.getD i none = some (movenetSlot t arr i) := by
  rw [detectPoseT_eq] at h
  by_cases h5 : movenetCount t arr ≥ 5
  · rw [if_pos h5] at h
    cases h
    refine ⟨by simp, fun i hi => ?_⟩
    show ((List.range 17).map (fun i => some (movenetSlot t arr i))).getD i none = _
    exact getD_map_range 17 _ i hi
  · rw [if_neg h5] at h
    cases h

theorem initSlots_length : initSlots.length = 17 := by simp [initSlots]

theorem convertMLKitT_keypoints (t : ℚ) (f : Frame) (q : MLKitPose) (p : Pose)
    (h : convertMLKitPoseToPoseT t f q = some p) :
    p.keypoints = (keypointMapping.foldl (mlkitStep t f q) (initSlots, 0, 0)).1 := by
  rw [convertMLKitPoseToPoseT_eq] at h
  by_cases h5 : mlkitCount t q ≥ 5
  · rw [if_pos h5] at h
    cases h
    rfl
  · rw [if_neg h5] at h
    cases h

theorem convertMLKitT_write (t : ℚ) (f : Frame) (q : MLKitPose) (p : Pose)
    (h : convertMLKitPoseToPoseT t f q = some p) (m : MapEntry)
    (hm : m ∈ keypointMapping) (hp : passes t q m = true) :
    p.keypoints.getD m.2 none = some (entryKp f q m) := by
  rw [convertMLKitT_keypoints t f q p h]
  exact mlkitFold_getD_write t f q keypointMapping initSlots 0 0 m
    keypointMapping_snd_nodup hm hp

theorem convertMLKitT_sentinel (t : ℚ) (f : Frame) (q : MLKitPose) (p : Pose)
    (h : convertMLKitPoseToPoseT t f q = some p) (j : ℕ) (hj : j < 17)
    (hnw : ∀ m ∈ keypointMapping, passes t q m = true → m.2 ≠ j) :
    p.keypoints.getD j none = some ⟨0, 0, 0⟩ := by
  rw [convertMLKitT_keypoints t f q p h,
    mlkitFold_getD_frozen t f q keypointMapping initSlots 0 0 j hnw,
    getD_initSlots, if_pos hj]

theorem convertMLKitT_len_iff (t : ℚ) (f : Frame) (q : MLKitPose) (p : Pose)
    (h : convertMLKitPoseToPoseT t f q = some p) :
    p.keypoints.length = 17 ↔
      ∀ m ∈ keypointMapping, passes t q m = true → m.2 < 17 := by
  rw [convertMLKitT_keypoints t f q p h]
  constructor
  · intro hlen m hm hp
    by_contra hge
    have := mlkitFold_len_gt t f q keypointMapping initSlots 0 0 m hm hp
      (by rw [initSlots_length]; omega)
    rw [initSlots_length] at this
    omega
  · intro hlt
    rw [mlkitFold_len_eq t f q keypointMapping initSlots 0 0
      (fun m hm hp => by rw [initSlots_length]; exact hlt m hm hp),
      initSlots_length]

/-- An ML Kit landmark at pixel position (50, 50) with the given
likelihood. -/
def lmk (v : ℚ) : Option MLKitLandmark := some ⟨50, 50, v⟩

/-- An ML Kit pose with all 17 mapped landmarks present at likelihood
9/10: every mapping row passes the 0.3 gate. -/
def fullMLKitPose : MLKitPose :=
  ⟨lmk (9/10), lmk (9/10), lmk (9/10), lmk (9/10), lmk (9/10), lmk (9/10),
   lmk (9/10), lmk (9/10), lmk (9/10), lmk (9/10), lmk (9/10), lmk (9/10),
   lmk (9/10), lmk (9/10), lmk (9/10), lmk (9/10), lmk (9/10)⟩

/-- A 100 by 100 pixel camera frame. -/
def cFrame : Frame := ⟨100, 100⟩

theorem claim_C2_cex :
    (convertMLKitPoseToPose cFrame fullMLKitPose).map
      (fun p => p.keypoints.length) = some 29 ∧ (29 : ℕ) ≠ 17 := by
  constructor
  · norm_num [convertMLKitPoseToPose, convertMLKitPoseToPoseT, keypointMapping,
      mlkitStep, jsSet, fullMLKitPose, lmk, cFrame, KeypointIndex.NOSE,
      KeypointIndex.LEFT_EYE, KeypointIndex.RIGHT_EYE, KeypointIndex.LEFT_EAR,
      KeypointIndex.RIGHT_EAR, KeypointIndex.LEFT_SHOULDER,
      KeypointIndex.RIGHT_SHOULDER, KeypointIndex.LEFT_ELBOW,
      KeypointIndex.RIGHT_ELBOW, KeypointIndex.LEFT_WRIST,
      KeypointIndex.RIGHT_WRIST, KeypointIndex.LEFT_HIP,
      KeypointIndex.RIGHT_HIP, KeypointIndex.LEFT_KNEE,
      KeypointIndex.RIGHT_KNEE, KeypointIndex.LEFT_ANKLE,
      KeypointIndex.RIGHT_ANKLE]
  · omega

/-- Claim C2 (amended): every Pose returned by the MoveNet path
(`detectPose`) has exactly 17 keypoints, positionally ordered by MoveNet
source slot, with every landmark whose confidence is not above 0.3 present
as the sentinel ((0,0), confidence 0) rather than omitted. The ML Kit path
(`convertMLKitPoseToPose`) starts from 17 sentinel slots ordered by
canonical index and stores each kept keypoint at its BlazePose
`KeypointIndex` position — every canonical index below 17 that receives no
kept write remains the sentinel — but because `KeypointIndex` values reach
28, its keypoint collection has exactly 17 elements if and only if no kept
landmark has an index of 17 or more; otherwise the collection is longer
than 17 (29 elements on a concrete full-visibility input). -/
theorem claim_C2 :
    (∀ (arr : ℕ → ℚ) (p : Pose), detectPose arr = some p →
      p.keypoints.length = 17 ∧
      (∀ i, i < 17 →
        p.keypoints.getD i none = some (movenetSlot MIN_KEYPOINT_SCORE arr i)) ∧
      (∀ i, i < 17 → ¬(arr (i*3+2) > MIN_KEYPOINT_SCORE) →
        p.keypoints.getD i none = some ⟨0, 0, 0⟩)) ∧
    (∀ (f : Frame) (q : MLKitPose) (p : Pose),
      convertMLKitPoseToPose f q = some p →
      (∀ m ∈ keypointMapping, passes (3/10) q m = true →
        p.keypoints.getD m.2 none = some (entryKp f q m)) ∧
      (∀ j, j < 17 → (∀ m ∈ keypointMapping, passes (3/10) q m = true → m.2 ≠ j) →
        p.keypoints.getD j none = some ⟨0, 0, 0⟩) ∧
      (p.keypoints.length = 17 ↔
        ∀ m ∈ keypointMapping, passes (3/10) q m = true → m.2 < 17)) ∧
    ((convertMLKitPoseToPose cFrame fullMLKitPose).map
      (fun p => p.keypoints.length) = some 29) := by
  refine ⟨?_, ?_, ?_⟩
  · intro arr p hp
    obtain ⟨hlen, hslots⟩ := detectPoseT_slots MIN_KEYPOINT_SCORE arr p hp
    refine ⟨hlen, hslots, fun i hi hlow => ?_⟩
    rw [hslots i hi]
    unfold movenetSlot
    rw [if_neg hlow]
  · intro f q p hp
    exact ⟨convertMLKitT_write (3/10) f q p hp,
      fun j hj hnw => convertMLKitT_sentinel (3/10) f q p hp j hj hnw,
      convertMLKitT_len_iff (3/10) f q p hp⟩
  · exact claim_C2_cex.1

theorem claim_C2_witness :
    ∃ p, detectPose wArr = some p ∧ p.keypoints.length = 17 := by
  obtain ⟨p, hp⟩ : ∃ p, detectPose wArr = some p := by
    rw [detectPose, detectPoseT_eq, if_pos (by
      norm_num [movenetCount, movenetKept, wArr, List.range_succ,
        MIN_KEYPOINT_SCORE])]
    exact ⟨_, rfl⟩
  exact ⟨p, hp, (claim_C2.1 wArr p hp).1⟩

/-- Claim C8: `detectPose` stores keypoints at positions 0-16 in MoveNet's
native output order (slot i of the flat array lands at position i), while
`convertMLKitPoseToPose` stores kept keypoints at the BlazePose indices of
the `KeypointIndex` enumeration (the mapping's target-index column, with
values up to 28); consequently, on a detector output where all 17 MoveNet
keypoints are kept, indexing the `detectPose` result positionally by
`KeypointIndex.LEFT_HIP` (23) — an index `SKELETON_CONNECTIONS` uses —
selects nothing (out of range) rather than the named landmark. -/
theorem claim_C8 :
    (∀ (arr : ℕ → ℚ) (p : Pose), detectPose arr = some p →
      p.keypoints.length = 17 ∧
      ∀ i, i < 17 →
        p.keypoints.getD i none = some (movenetSlot MIN_KEYPOINT_SCORE arr i)) ∧
    (keypointMapping.map Prod.snd = canonicalIndices ∧
      KeypointIndex.RIGHT_ANKLE = 28 ∧ KeypointIndex.LEFT_HIP = 23) ∧
    (∀ (f : Frame) (q : MLKitPose) (p : Pose),
      convertMLKitPoseToPose f q = some p →
      ∀ m ∈ keypointMapping, passes (3/10) q m = true →
        p.keypoints.getD m.2 none = some (entryKp f q m)) ∧
    ((detectPose wArr).map
      (fun p => p.keypoints.getD KeypointIndex.LEFT_HIP none) = some none) ∧
    ((⟨KeypointIndex.LEFT_HIP, KeypointIndex.LEFT_KNEE⟩ : SkeletonConnection) ∈
      SKELETON_CONNECTIONS) := by
  refine ⟨?_, ⟨rfl, rfl, rfl⟩, ?_, ?_, ?_⟩
  · intro arr p hp
    exact detectPoseT_slots MIN_KEYPOINT_SCORE arr p hp
  · intro f q p hp
    exact convertMLKitT_write (3/10) f q p hp
  · obtain ⟨p, hp⟩ : ∃ p, detectPose wArr = some p := by
      rw [detectPose, detectPoseT_eq, if_pos (by
        norm_num [movenetCount, movenetKept, wArr, List.range_succ,
          MIN_KEYPOINT_SCORE])]
      exact ⟨_, rfl⟩
    rw [hp]
    obtain ⟨hlen, _⟩ := detectPoseT_slots MIN_KEYPOINT_SCORE wArr p hp
    have : p.keypoints.getD KeypointIndex.LEFT_HIP none = none := by
      rw [List.getD_eq_getElem?_getD,
        List.getElem?_eq_none (by rw [hlen]; norm_num [KeypointIndex.LEFT_HIP])]
      simp
    rw [Option.map_some']
    rw [this]
  · decide

/-- Claim C10: `MLKitPoseDetectionService.processFrame` returns null and
mutates no state when the service is not initialized or the supplied pose
list is null or empty; when at least one ML Kit pose is supplied (and the
service is ready) it converts exactly the first element, ignoring the
rest of the list. -/
theorem claim_C10 :
    (∀ (s : MLKitService) (f : Frame) (ps : Option (List MLKitPose)),
      isReady s = false → processFrame s f ps = (none, s)) ∧
    (∀ (s : MLKitService) (f : Frame),
      processFrame s f none = (none, s) ∧
      processFrame s f (some []) = (none, s)) ∧
    (∀ (s : MLKitService) (f : Frame) (q : MLKitPose) (rest : List MLKitPose),
      isReady s = true →
      processFrame s f (some (q :: rest)) = (convertMLKitPoseToPose f q, s)) ∧
    (∀ (s : MLKitService) (f : Frame) (q : MLKitPose)
      (rest1 rest2 : List MLKitPose),
      processFrame s f (some (q :: rest1)) = processFrame s f (some (q :: rest2))) := by
  refine ⟨?_, ?_, ?_, ?_⟩
  · intro s f ps h
    rcases ps with _ | ⟨_ | ⟨q, rest⟩⟩ <;> simp [processFrame, h]
  · intro s f
    by_cases h : isReady s <;> simp [processFrame, h]
  · intro s f q rest h
    simp [processFrame, h]
  · intro s f q rest1 rest2
    by_cases h : isReady s <;> simp [processFrame, h]

theorem claim_C10_witness :
    processFrame ⟨false, false⟩ cFrame (some [fullMLKitPose]) =
      (none, ⟨false, false⟩) ∧
    processFrame ⟨true, false⟩ cFrame none = (none, ⟨true, false⟩) ∧
    processFrame ⟨true, false⟩ cFrame (some [fullMLKitPose]) =
      (convertMLKitPoseToPose cFrame fullMLKitPose, ⟨true, false⟩) := by
  refine ⟨?_, ?_, ?_⟩
  · exact claim_C10.1 ⟨false, false⟩ cFrame (some [fullMLKitPose]) rfl
  · exact (claim_C10.2.1 ⟨true, false⟩ cFrame).1
  · exact claim_C10.2.2.1 ⟨true, false⟩ cFrame fullMLKitPose [] rfl

/-- Claim C6: for all 3-point inputs with non-coincident points,
`angleBetween` returns a value in [0,180]; collinear points with `b`
strictly between `a` and `c` yield 180; perpendicular rays yield 90 (within
the claimed half-degree, here exactly); coincident points yield the
`DegenerateAngle` error, not a silent 0 or NaN. -/
theorem claim_C6 (a b c : Pt) :
    ((a = b ∨ c = b) → angleBetween a b c = .error .DegenerateAngle) ∧
    (a ≠ b → c ≠ b → ∃ θ : ℝ, angleBetween a b c = .ok θ ∧ 0 ≤ θ ∧ θ ≤ 180) ∧
    (∀ t : ℚ, 0 < t → a.x - b.x = -t * (c.x - b.x) →
      a.y - b.y = -t * (c.y - b.y) → c ≠ b → angleBetween a b c = .ok 180) ∧
    (a ≠ b → c ≠ b →
      (a.x - b.x) * (c.x - b.x) + (a.y - b.y) * (c.y - b.y) = 0 →
      angleBetween a b c = .ok 90) := by
  refine ⟨angleBetween_degenerate a b c, angleBetween_mem_range a b c, ?_, ?_⟩
  · intro t ht hx hy hcb
    exact angleBetween_between a b c t ht hx hy hcb
  · intro ha hc hdot
    exact angleBetween_perp a b c ha hc hdot

theorem claim_C6_witness :
    angleBetween ⟨0, 1⟩ ⟨0, 0⟩ ⟨1, 0⟩ = .ok 90 ∧
    angleBetween ⟨-2, 0⟩ ⟨0, 0⟩ ⟨1, 0⟩ = .ok 180 ∧
    angleBetween ⟨3, 4⟩ ⟨3, 4⟩ ⟨1, 0⟩ = .error .DegenerateAngle := by
  refine ⟨?_, ?_, ?_⟩
  · exact (claim_C6 ⟨0, 1⟩ ⟨0, 0⟩ ⟨1, 0⟩).2.2.2
      (by simp) (by simp) (by norm_num)
  · exact (claim_C6 ⟨-2, 0⟩ ⟨0, 0⟩ ⟨1, 0⟩).2.2.1 2
      (by norm_num) (by norm_num) (by norm_num) (by simp)
  · exact (claim_C6 ⟨3, 4⟩ ⟨3, 4⟩ ⟨1, 0⟩).1 (Or.inl rfl)

/-- The squat profile of the spec's testable-properties section: standing
threshold 170 degrees, bottom threshold 90 degrees, minimum dwell 200 ms. -/
def cfgSquat : RepConfig := ⟨170, 90, 200⟩

/-- A full squat cycle: standing at 170, descending, 70 degrees held for
250 ms, ascending, standing again at 175. -/
def squatCycle : List (ℚ × Option ℚ) :=
  [(0, some 170), (100, some 150), (200, some 70), (300, some 70),
   (450, some 70), (500, some 80), (600, some 175)]

/-- Claim C7: a full-rep event is emitted only on an ASCENDING-to-STANDING
transition; between any two full-rep events the machine must have left
STANDING (a DESCENDING state intervenes); and one complete
STANDING-DESCENDING-BOTTOM(held past the dwell)-ASCENDING-STANDING cycle
yields exactly one full-rep event and zero half-rep events. -/
theorem claim_C7 :
    (∀ (cfg : RepConfig) (st : RepState) (now : ℚ) (obs : Option ℚ) (d : ℚ),
      (repStep cfg st now obs).2 = some (.fullRep d) →
      st.phase = .ASCENDING ∧ (repStep cfg st now obs).1.phase = .STANDING) ∧
    (∀ (cfg : RepConfig) (st : RepState) (o1 o2 : ℚ × Option ℚ)
      (mid : List (ℚ × Option ℚ)) (d1 d2 : ℚ),
      (repStep cfg st o1.1 o1.2).2 = some (.fullRep d1) →
      (repStep cfg (runRep cfg (repStep cfg st o1.1 o1.2).1 mid)
        o2.1 o2.2).2 = some (.fullRep d2) →
      ∃ k, 1 ≤ k ∧ k ≤ mid.length ∧
        (runRep cfg (repStep cfg st o1.1 o1.2).1 (mid.take k)).phase =
          .DESCENDING) ∧
    (runRepEvents cfgSquat initRepState squatCycle = [.fullRep 70] ∧
      (runRep cfgSquat initRepState squatCycle).fullReps = 1 ∧
      (runRep cfgSquat initRepState squatCycle).halfReps = 0) := by
  refine ⟨repStep_fullRep, ?_, ?_⟩
  · intro cfg st o1 o2 mid d1 d2 h1 h2
    have hs1 : (repStep cfg st o1.1 o1.2).1.phase = .STANDING :=
      (repStep_fullRep cfg st o1.1 o1.2 d1 h1).2
    have hs2 : (runRep cfg (repStep cfg st o1.1 o1.2).1 mid).phase = .ASCENDING :=
      (repStep_fullRep cfg _ o2.1 o2.2 d2 h2).1
    exact reach_descending cfg mid _ hs1 (Or.inl hs2)
  · refine ⟨?_, ?_, ?_⟩ <;>
      norm_num [runRepEvents, runRep, repStep, squatCycle, cfgSquat,
        initRepState]

theorem claim_C7_witness :
    (⟨.ASCENDING, none, some 80, 75, 0, 0⟩ : RepState).phase = .ASCENDING ∧
    (repStep cfgSquat ⟨.ASCENDING, none, some 80, 75, 0, 0⟩ 0
      (some 175)).1.phase = .STANDING := by
  refine claim_C7.1 cfgSquat ⟨.ASCENDING, none, some 80, 75, 0, 0⟩ 0
    (some 175) 75 ?_
  norm_num [repStep, cfgSquat]

theorem claim_C8_witness :
    ∃ p, detectPose wArr = some p ∧ p.keypoints.length = 17 ∧
      p.keypoints.getD 0 none = some (movenetSlot MIN_KEYPOINT_SCORE wArr 0) := by
  obtain ⟨p, hp⟩ : ∃ p, detectPose wArr = some p := by
    rw [detectPose, detectPoseT_eq, if_pos (by
      norm_num [movenetCount, movenetKept, wArr, List.range_succ,
        MIN_KEYPOINT_SCORE])]
    exact ⟨_, rfl⟩
  exact ⟨p, hp, (claim_C8.1 wArr p hp).1,
    (claim_C8.1 wArr p hp).2 0 (by norm_num)⟩
